import Mathlib

/-!
Shallow embedding of the fee-board core: the incremental fee cache of
`src/pages/protocol/[id].tsx` (getMissing, getDateWithSmoothing, formatData,
saveFeeData and the `useFees` effect) and the Uniswap adapters of the adapter
module (uniV3Adapter, getUniswapV2Data, getUniswapV1Data, registerUniswap).

Modelling conventions:
- A DateKey is the number of UTC days since the epoch, as an `Int`.
  `formatDate` / `addDays` / `subDays` of the source become integer
  arithmetic on day numbers; `date.getTime() / 1000` becomes
  `day * secondsPerDay`.
- A stored fee record is represented by its `fee` field, an exact rational
  (the claims under study only concern the fee attribute).
- JavaScript objects used as dictionaries become association lists, with the
  source's insertion-order semantics (overwrite in place, append new keys).
- A JavaScript expression that throws (property access on `undefined`)
  becomes `none` in an `Option` computation.
-/

namespace FeeBoard

-- A DateKey is represented directly as `Int` (see the header comment).

/-- A stored fee record, represented by its `fee` value (exact rational). -/
abbrev FeeRec := ℚ

/-- The per-protocol date map `{ [date: string]: record }`. -/
abbrev DateMap := List (Int × FeeRec)

/-- The fee store `{ [protocolId: string]: { [date: string]: record } }`. -/
abbrev FeeStore := List (String × DateMap)

/-- Lookup of `m[d]` in a per-protocol date map. -/
def lookupDate (m : DateMap) (d : Int) : Option FeeRec :=
  match m with
  | [] => none
  | (k, v) :: rest => if k = d then some v else lookupDate rest d

/-- Lookup of `data[id]` in the fee store. -/
def lookupId (s : FeeStore) (id : String) : Option DateMap :=
  match s with
  | [] => none
  | (k, m) :: rest => if k = id then some m else lookupId rest id

/-- Truthiness of `data[id][dateStr]`: the cell exists in the store. -/
def storeHas (s : FeeStore) (id : String) (d : Int) : Bool :=
  match lookupId s id with
  | none => false
  | some m => (lookupDate m d).isSome

/-- `data[id][formatDate(d)].fee`, `none` when the access would throw. -/
def cellFee (s : FeeStore) (id : String) (d : Int) : Option ℚ :=
  match lookupId s id with
  | none => none
  | some m => lookupDate m d

/-- The days visited by `for (let date = minDate; !isAfter(date, maxDate);
date = addDays(date, 1))`: `minD, minD+1, ..., maxD` (empty when
`minD > maxD`). -/
def dateRange (minD maxD : Int) : List Int :=
  (List.range (maxD + 1 - minD).toNat).map (fun i : Nat => minD + (i : Int))

/-- `getMissing(data, minDate, maxDate, id)` from `[id].tsx`. It first makes
sure `data[id]` exists (a genuine mutation of the store, returned as the
first component), then collects the dates of the range whose cell is absent,
in loop order. -/
def getMissing (data : FeeStore) (minD maxD : Int) (id : String) :
    FeeStore × List Int :=
  let data' :=
    match lookupId data id with
    | some _ => data
    | none => data ++ [(id, [])]
  (data', (dateRange minD maxD).filter (fun d => !(storeHas data' id d)))

/-- The running sum of the smoothing loop: the day's fee plus the fees of the
`k` preceding days, read in the source's ascending `i = 1 .. k` order;
`none` as soon as a required cell is absent. -/
def sumSmoothing (data : FeeStore) (id : String) (date : Int) :
    Nat → Option ℚ
  | 0 => cellFee data id date
  | k + 1 => do
      let acc ← sumSmoothing data id date k
      let f ← cellFee data id (date - ((k : Int) + 1))
      pure (acc + f)

/-- `getDateWithSmoothing(data, id, date, smoothing)` from `[id].tsx`. -/
def getDateWithSmoothing (data : FeeStore) (id : String) (date : Int)
    (smoothing : Nat) : Option ℚ :=
  if smoothing > 0 then do
    let total ← sumSmoothing data id date smoothing
    pure (total / ((smoothing : ℚ) + 1))
  else cellFee data id date

/-- Epoch seconds in one day; `date.getTime() / 1000` for a UTC-midnight
date is its day number times this constant. -/
def secondsPerDay : Int := 86400

/-- One chart point `{ date, primary, secondary }`. -/
structure SeriesPoint where
  date : Int
  primary : ℚ
  secondary : ℚ
deriving DecidableEq

/-- The body of the `formatData` loop for one day: both smoothed values and
the pushed point; `none` when a lookup inside would throw. -/
def seriesPointAt (data : FeeStore) (primaryId : String)
    (secondaryId : Option String) (smoothing : Nat) (d : Int) :
    Option SeriesPoint := do
  let primary ← getDateWithSmoothing data primaryId d smoothing
  let secondary ←
    match secondaryId with
    | some sid => getDateWithSmoothing data sid d smoothing
    | none => pure (0 : ℚ)
  pure ⟨d * secondsPerDay, primary, secondary⟩

/-- The `result.push(...)` loop of `formatData`, aborting at the first day
whose computation throws. -/
def buildSeries (data : FeeStore) (primaryId : String)
    (secondaryId : Option String) (smoothing : Nat) :
    List Int → Option (List SeriesPoint)
  | [] => some []
  | d :: ds => do
      let p ← seriesPointAt data primaryId secondaryId smoothing d
      let rest ← buildSeries data primaryId secondaryId smoothing ds
      pure (p :: rest)

/-- `formatData(data, minDate, maxDate, primaryId, secondaryId, smoothing)`
from `[id].tsx`. -/
def formatData (data : FeeStore) (minD maxD : Int) (primaryId : String)
    (secondaryId : Option String) (smoothing : Nat) :
    Option (List SeriesPoint) :=
  buildSeries data primaryId secondaryId smoothing (dateRange minD maxD)

/-- `m[d] = v` with JavaScript object semantics: overwrite in place,
append a new key. -/
def setDate (m : DateMap) (d : Int) (v : FeeRec) : DateMap :=
  match m with
  | [] => [(d, v)]
  | (k, w) :: rest =>
      if k = d then (k, v) :: rest else (k, w) :: setDate rest d v

/-- `data[id] = m` with JavaScript object semantics. -/
def setId (s : FeeStore) (id : String) (m : DateMap) : FeeStore :=
  match s with
  | [] => [(id, m)]
  | (k, w) :: rest =>
      if k = id then (k, m) :: rest else (k, w) :: setId rest id m

/-- The inner loop of `saveFeeData`: store each returned record under its
date. -/
def saveDates (m : DateMap) (recs : List (Int × FeeRec)) : DateMap :=
  recs.foldl (fun acc r => setDate acc r.1 r.2) m

/-- `saveFeeData(response, storedFees)` from `[id].tsx`: for each protocol of
the response, ensure its map exists and merge every returned record. -/
def saveFeeData (response : List (String × List (Int × FeeRec)))
    (stored : FeeStore) : FeeStore :=
  response.foldl
    (fun st p =>
      let m := match lookupId st p.1 with
        | none => []
        | some m => m
      setId st p.1 (saveDates m p.2))
    stored

/-- The parameters of one `useFees` effect invocation
`(dateRange, primary, secondary, smoothing)`. -/
structure Params where
  rangeStart : Int
  rangeEnd : Int
  primary : String
  secondary : Option String
  smoothing : Nat
deriving DecidableEq

/-- What the synchronous part of the `useFees` effect does: either it starts
a fetch for the missing days (leaving `loading = true` behind), or it derives
the series immediately. The store is returned because `getMissing` mutates
it. -/
inductive EffectResult where
  | fetch (fees : FeeStore) (missingPrimary missingSecondary : List Int)
  | immediate (fees : FeeStore) (series : Option (List SeriesPoint))
deriving DecidableEq

/-- `const actualStartDate = smoothing > 0 ? subDays(dateRange.start,
smoothing) : dateRange.start`: the effective start of the fetched range. -/
def actualStart (p : Params) : Int :=
  if p.smoothing > 0 then p.rangeStart - (p.smoothing : Int)
  else p.rangeStart

/-- The synchronous body of the `useFees` effect from `[id].tsx`: compute the
smoothing-extended start, the missing sets for primary and (if set)
secondary, and branch on whether anything is missing. -/
def runEffect (fees : FeeStore) (p : Params) : EffectResult :=
  let res1 := getMissing fees (actualStart p) p.rangeEnd p.primary
  let res2 :=
    match p.secondary with
    | some sid => getMissing res1.1 (actualStart p) p.rangeEnd sid
    | none => (res1.1, [])
  if res1.2.length > 0 ∨ res2.2.length > 0 then
    .fetch res2.1 res1.2 res2.2
  else
    .immediate res2.1
      (formatData res2.1 p.rangeStart p.rangeEnd p.primary p.secondary
        p.smoothing)

/-- An in-flight fetch together with the parameters its completion handler
captured by closure. -/
structure PendingReq where
  params : Params
  missingPrimary : List Int
  missingSecondary : List Int
deriving DecidableEq

/-- The observable state of the `useFees` hook: the mutable fee store held in
the ref, the `{ loading, data }` value, the in-flight fetches, and a count of
`console.error` calls. -/
structure HookState where
  fees : FeeStore
  loading : Bool
  data : List SeriesPoint
  pending : List PendingReq
  errorLogs : Nat
deriving DecidableEq

/-- An event of the hook's life: an effect invocation (the dependencies
changed), or the resolution of the `idx`-th in-flight fetch with a success
flag and a response body. -/
inductive Event where
  | trigger (p : Params)
  | resolve (idx : Nat) (success : Bool)
      (resp : List (String × List (Int × FeeRec)))

/-- Run one `useFees` effect invocation on the hook state. In the fetch
branch the source runs `setValue(({data}) => ({data, loading: true}))` and
issues the request; in the immediate branch it runs `setValue` with the
derived series (when `formatData` would throw, `setValue` is never reached
and the state keeps its previous value fields). -/
def stepTrigger (s : HookState) (p : Params) : HookState :=
  match runEffect s.fees p with
  | .fetch fees' mp ms =>
      { s with fees := fees', loading := true,
               pending := s.pending ++ [⟨p, mp, ms⟩] }
  | .immediate fees' series =>
      match series with
      | some d => { s with fees := fees', loading := false, data := d }
      | none => { s with fees := fees' }

/-- Run the completion handler of a resolved fetch, exactly as the promise
chain of the source: on `success` merge the response into the ref and
`setValue` with the series derived for the handler's captured parameters (a
throwing `formatData` leaves `setValue` unreached, after the merge); on
failure, `console.error` and `setValue(({data}) => ({data, loading:
false}))`. -/
def stepResolveBody (s : HookState) (r : PendingReq) (success : Bool)
    (resp : List (String × List (Int × FeeRec))) : HookState :=
  if success then
    let fees' := saveFeeData resp s.fees
    match formatData fees' r.params.rangeStart r.params.rangeEnd
        r.params.primary r.params.secondary r.params.smoothing with
    | some series => { s with fees := fees', loading := false, data := series }
    | none => { s with fees := fees' }
  else
    { s with loading := false, errorLogs := s.errorLogs + 1 }

/-- One step of the hook: a trigger runs the effect body; a resolution runs
the completion handler of the addressed in-flight fetch and retires it. -/
def step (s : HookState) : Event → HookState
  | .trigger p => stepTrigger s p
  | .resolve idx success resp =>
      match s.pending.get? idx with
      | none => s
      | some r =>
          { stepResolveBody s r success resp with
            pending := s.pending.eraseIdx idx }

/-- Run a sequence of events from a state. -/
def runTrace (s : HookState) (es : List Event) : HookState :=
  es.foldl step s

/-- The hook state before any effect has run, seeded with an initial store. -/
def initState (fees : FeeStore) : HookState :=
  { fees := fees, loading := false, data := [], pending := [], errorLogs := 0 }

/-! ## Uniswap adapters

The upstream GraphQL responses are modelled by the lists of numeric values
the adapters read from them (`parseFloat` of a well-formed numeric string is
the identity on the modelled rational). Indexing `arr[arr.length - 1]` on an
empty array yields `undefined` and the subsequent property access throws:
this becomes `none`. -/

/-- The `0.003` fee-rate multiplier, exactly. -/
def feeRate : ℚ := 3 / 1000

/-- Upstream response of the V3 day query: the `feesUSD` of each returned
`uniswapDayDatas` row. -/
structure UniV3Response where
  uniswapDayDatas : List ℚ
deriving DecidableEq

/-- Upstream response of the V2 day query: the `dailyVolumeUSD` of each
`uniswapDayDatas` row and of each blacklisted `pairDayDatas` row. -/
structure UniV2Response where
  uniswapDayDatas : List ℚ
  blacklist : List ℚ
deriving DecidableEq

/-- Upstream response of the V1 day query: the `dailyVolumeInUSD` of each
`uniswapDayDatas` row. -/
structure UniV1Response where
  uniswapDayDatas : List ℚ
deriving DecidableEq

/-- `uniV3Adapter` from the Uniswap adapter module: zero rows are mapped to
a fee of `0`, otherwise the last row's `feesUSD` is the fee. -/
def uniV3Adapter (resp : UniV3Response) : Option ℚ :=
  if resp.uniswapDayDatas.length = 0 then some 0
  else resp.uniswapDayDatas.get? (resp.uniswapDayDatas.length - 1)

/-- The `reduce` computing the blacklisted pairs' total volume in
`getUniswapV2Data`. -/
def blacklistVolume (resp : UniV2Response) : ℚ :=
  resp.blacklist.foldl (fun total v => total + v) 0

/-- `getUniswapV2Data` from the Uniswap adapter module: the last row's
volume minus the blacklisted volume, times the fee rate; throws (`none`) on
an empty `uniswapDayDatas`. -/
def getUniswapV2Data (resp : UniV2Response) : Option ℚ :=
  match resp.uniswapDayDatas.get? (resp.uniswapDayDatas.length - 1) with
  | none => none
  | some dayVolume => some ((dayVolume - blacklistVolume resp) * feeRate)

/-- `getUniswapV1Data` from the Uniswap adapter module: the last row's
volume times the fee rate; throws (`none`) on an empty
`uniswapDayDatas`. -/
def getUniswapV1Data (resp : UniV1Response) : Option ℚ :=
  match resp.uniswapDayDatas.get? (resp.uniswapDayDatas.length - 1) with
  | none => none
  | some dayVolume => some (dayVolume * feeRate)

/-- Which day-fee function a registration delegates to. -/
inductive UniswapVariant where
  | v1
  | v2
  | v3 (subgraph : String)
deriving DecidableEq

/-- A delegated invocation of a day-fee function: which function and for
which date. Producing one of these is the only way a query reaches the
network. -/
structure AdapterCall where
  variant : UniswapVariant
  date : String
deriving DecidableEq

/-- The `query` wrapper inside `registerUniswap`: any attribute other than
the literal `"fee"` throws before the day-fee function is invoked; `"fee"`
delegates to it. -/
def uniswapQueryFn (variant : UniswapVariant) (attr : String)
    (date : String) : Except String AdapterCall :=
  if attr ≠ "fee" then
    Except.error ("Uniswap doesn't support " ++ attr)
  else
    Except.ok ⟨variant, date⟩

/-- One `register(id, query(fn), metadata)` call, reduced to the fields the
claims concern: the id and the delegated day-fee function. -/
structure UniswapRegistration where
  id : String
  variant : UniswapVariant
deriving DecidableEq

/-- The four registrations performed by `registerUniswap`. -/
def registerUniswap : List UniswapRegistration :=
  [⟨"uniswap-v1", .v1⟩,
   ⟨"uniswap-v2", .v2⟩,
   ⟨"uniswap-v3", .v3 "ianlapham/uniswap-v3-prod"⟩,
   ⟨"uniswap-optimism", .v3 "ianlapham/uniswap-optimism"⟩]

/-! ## Basic facts about the day range and the store -/

lemma mem_dateRange {minD maxD d : Int} :
    d ∈ dateRange minD maxD ↔ minD ≤ d ∧ d ≤ maxD := by
  constructor
  · intro hd
    obtain ⟨i, hi, rfl⟩ := List.mem_map.mp hd
    have := List.mem_range.mp hi
    omega
  · intro h
    refine List.mem_map.mpr ⟨(d - minD).toNat, List.mem_range.mpr ?_, ?_⟩ <;>
      omega

lemma dateRange_pairwise (minD maxD : Int) :
    (dateRange minD maxD).Pairwise (· < ·) := by
  rw [dateRange, List.pairwise_map]
  exact (List.pairwise_lt_range _).imp (fun h => by omega)

lemma dateRange_length (minD maxD : Int) :
    (dateRange minD maxD).length = (maxD + 1 - minD).toNat := by
  rw [dateRange, List.length_map, List.length_range]

lemma lookupId_append_empty {data : FeeStore} {id : String}
    (h : lookupId data id = none) (j : String) :
    lookupId (data ++ [(id, [])]) j =
      if j = id then some [] else lookupId data j := by
  induction data with
  | nil =>
      by_cases hj : j = id
      · subst hj
        simp [lookupId]
      · rw [if_neg hj, List.nil_append]
        show (if id = j then some [] else lookupId [] j) = lookupId [] j
        rw [if_neg (fun h' => hj h'.symm)]
  | cons hd tl ih =>
      obtain ⟨k, m⟩ := hd
      have hk : ¬k = id := by
        intro hk
        subst hk
        simp [lookupId] at h
      have h' : lookupId tl id = none := by
        simpa [lookupId, hk] using h
      show (if k = j then some m else lookupId (tl ++ [(id, [])]) j) = _
      by_cases hkj : k = j
      · have hj : ¬j = id := fun hji => hk (hkj.trans hji)
        rw [if_pos hkj, if_neg hj]
        show some m = if k = j then some m else lookupId tl j
        rw [if_pos hkj]
      · rw [if_neg hkj, ih h']
        by_cases hj : j = id
        · rw [if_pos hj, if_pos hj]
        · rw [if_neg hj, if_neg hj]
          show lookupId tl j = if k = j then some m else lookupId tl j
          rw [if_neg hkj]

lemma getMissing_fst_of_some {data : FeeStore} {id : String} {m : DateMap}
    (h : lookupId data id = some m) (minD maxD : Int) :
    (getMissing data minD maxD id).1 = data := by
  simp [getMissing, h]

lemma getMissing_fst_of_none {data : FeeStore} {id : String}
    (h : lookupId data id = none) (minD maxD : Int) :
    (getMissing data minD maxD id).1 = data ++ [(id, [])] := by
  simp [getMissing, h]

/-- The store mutation inside `getMissing` does not change any cell's
presence: the only possibly-new entry is an empty map. -/
lemma storeHas_getMissing_fst (data : FeeStore) (minD maxD : Int)
    (id j : String) (d : Int) :
    storeHas (getMissing data minD maxD id).1 j d = storeHas data j d := by
  cases h : lookupId data id with
  | some m => rw [getMissing_fst_of_some h]
  | none =>
      rw [getMissing_fst_of_none h]
      unfold storeHas
      rw [lookupId_append_empty h]
      by_cases hj : j = id
      · subst hj
        rw [if_pos rfl, h]
        simp [lookupDate]
      · rw [if_neg hj]

/-- The missing list of `getMissing` is a filter of the day range. -/
lemma getMissing_snd (data : FeeStore) (minD maxD : Int) (id : String) :
    (getMissing data minD maxD id).2 =
      (dateRange minD maxD).filter
        (fun d => !(storeHas (getMissing data minD maxD id).1 id d)) := by
  cases h : lookupId data id with
  | some m => simp [getMissing, h]
  | none => simp [getMissing, h]

/-- C6 — `getMissing` returns exactly the DateKeys of the requested inclusive
range that are absent from the store for the given protocol, in strictly
ascending date order. -/
theorem getMissing_exact (data : FeeStore) (minD maxD : Int)
    (id : String) (hle : minD ≤ maxD) :
    (∀ d, d ∈ (getMissing data minD maxD id).2 ↔
      minD ≤ d ∧ d ≤ maxD ∧ storeHas data id d = false) ∧
    (getMissing data minD maxD id).2.Pairwise (· < ·) := by
  constructor
  · intro d
    rw [getMissing_snd, List.mem_filter, mem_dateRange,
      storeHas_getMissing_fst]
    constructor
    · rintro ⟨⟨h1, h2⟩, h3⟩
      simp only [Bool.not_eq_true'] at h3
      exact ⟨h1, h2, h3⟩
    · rintro ⟨h1, h2, h3⟩
      exact ⟨⟨h1, h2⟩, by simp [h3]⟩
  · rw [getMissing_snd]
    exact (dateRange_pairwise minD maxD).sublist (List.filter_sublist _)

/-- A concrete run of C6: protocol `"p"` populated for days 1–4, request for
days 3–6; the missing set is exactly `[5, 6]`. -/
theorem getMissing_exact_witness :
    ((1 : Int) ≤ 6) ∧
    ((∀ d, d ∈ (getMissing [("p", [(1, 10), (2, 10), (3, 10), (4, 10)])]
        1 6 "p").2 ↔
      1 ≤ d ∧ d ≤ 6 ∧
        storeHas [("p", [(1, 10), (2, 10), (3, 10), (4, 10)])] "p" d
          = false) ∧
      (getMissing [("p", [(1, 10), (2, 10), (3, 10), (4, 10)])]
        1 6 "p").2.Pairwise (· < ·)) :=
  ⟨by decide,
   getMissing_exact [("p", [(1, 10), (2, 10), (3, 10), (4, 10)])] 1 6 "p"
     (by decide)⟩

/-- C10 — `getMissing` is not read-only: for an id absent from the store it
inserts an empty per-date map as a side effect, leaving every other entry's
lookup unchanged; for an id already present it leaves the store untouched. -/
theorem getMissing_store_effect (data : FeeStore) (minD maxD : Int)
    (id : String) :
    (lookupId data id = none →
      (getMissing data minD maxD id).1 = data ++ [(id, [])] ∧
      lookupId (getMissing data minD maxD id).1 id = some [] ∧
      ∀ j, j ≠ id →
        lookupId (getMissing data minD maxD id).1 j = lookupId data j) ∧
    (∀ m, lookupId data id = some m →
      (getMissing data minD maxD id).1 = data) := by
  constructor
  · intro h
    refine ⟨getMissing_fst_of_none h minD maxD, ?_, ?_⟩
    · rw [getMissing_fst_of_none h minD maxD, lookupId_append_empty h,
        if_pos rfl]
    · intro j hj
      rw [getMissing_fst_of_none h minD maxD, lookupId_append_empty h,
        if_neg hj]
  · intro m h
    exact getMissing_fst_of_some h minD maxD

/-- A concrete run of C10: an id absent from the store is inserted with an
empty map and the other entry is untouched; a present id leaves the store
unchanged. -/
theorem getMissing_store_effect_witness :
    (lookupId [("p", [(1, (10 : ℚ))])] "q" = none ∧
      (getMissing [("p", [(1, (10 : ℚ))])] 1 2 "q").1 =
        [("p", [(1, (10 : ℚ))])] ++ [("q", [])] ∧
      lookupId (getMissing [("p", [(1, (10 : ℚ))])] 1 2 "q").1 "q" =
        some [] ∧
      lookupId (getMissing [("p", [(1, (10 : ℚ))])] 1 2 "q").1 "p" =
        lookupId [("p", [(1, (10 : ℚ))])] "p") ∧
    (lookupId [("p", [(1, (10 : ℚ))])] "p" = some [(1, (10 : ℚ))] ∧
      (getMissing [("p", [(1, (10 : ℚ))])] 1 2 "p").1 =
        [("p", [(1, (10 : ℚ))])]) := by
  have h := getMissing_store_effect [("p", [(1, (10 : ℚ))])] 1 2 "q"
  have h' := getMissing_store_effect [("p", [(1, (10 : ℚ))])] 1 2 "p"
  have hq : lookupId [("p", [(1, (10 : ℚ))])] "q" = none := by decide
  have hp : lookupId [("p", [(1, (10 : ℚ))])] "p" = some [(1, (10 : ℚ))] :=
    by decide
  obtain ⟨h1, h2, h3⟩ := h.1 hq
  exact ⟨⟨hq, h1, h2, h3 "p" (by decide)⟩, hp, h'.2 _ hp⟩

/-! ## Smoothing -/

lemma sumSmoothing_eq (data : FeeStore) (id : String) (date : Int)
    (f : Nat → ℚ) :
    ∀ k : Nat, (∀ i : Nat, i ≤ k → cellFee data id (date - (i : Int)) = some (f i)) →
      sumSmoothing data id date k =
        some (∑ i in Finset.range (k + 1), f i) := by
  intro k
  induction k with
  | zero =>
      intro h
      have h0 := h 0 le_rfl
      simp only [Nat.cast_zero, sub_zero] at h0
      simp [sumSmoothing, h0, Finset.sum_range_one]
  | succ k ih =>
      intro h
      have hind := ih (fun i hi => h i (hi.trans (Nat.le_succ k)))
      have hk := h (k + 1) le_rfl
      have hk' : cellFee data id (date - ((k : Int) + 1)) =
          some (f (k + 1)) := by
        have e : ((k : Int) + 1) = (((k + 1 : Nat)) : Int) := by
          push_cast
          ring
        rw [e]
        exact hk
      simp [sumSmoothing, hind, hk', Finset.sum_range_succ]

/-- C5 — whenever the store holds fees for a date and the `s` preceding
dates, `getDateWithSmoothing` returns the arithmetic mean of those `s + 1`
fee values (so `s = 0` is the day's fee unchanged). -/
theorem getDateWithSmoothing_mean (data : FeeStore) (id : String)
    (date : Int) (s : Nat) (f : Nat → ℚ)
    (h : ∀ i : Nat, i ≤ s → cellFee data id (date - (i : Int)) = some (f i)) :
    getDateWithSmoothing data id date s =
      some ((∑ i in Finset.range (s + 1), f i) / ((s : ℚ) + 1)) := by
  cases s with
  | zero =>
      have h0 := h 0 le_rfl
      simp only [Nat.cast_zero, sub_zero] at h0
      simp [getDateWithSmoothing, h0, Finset.sum_range_one]
  | succ n =>
      have hs := sumSmoothing_eq data id date f (n + 1) h
      simp [getDateWithSmoothing, hs]

/-- Store used by concrete witnesses: protocol `"p"` with fees 10, 20, 30 on
days 1, 2, 3. -/
def demoStore : FeeStore := [("p", [(1, 10), (2, 20), (3, 30)])]

/-- Fee values read backwards from day 3 in `demoStore`. -/
def demoF : Nat → ℚ
  | 0 => 30
  | 1 => 20
  | _ => 10

/-- A concrete run of C5: smoothing 2 over fees [10, 20, 30] on days 1–3
gives (10+20+30)/3 = 20 on day 3. -/
theorem getDateWithSmoothing_mean_witness :
    (∀ i : Nat, i ≤ 2 → cellFee demoStore "p" (3 - (i : Int)) = some (demoF i)) ∧
    getDateWithSmoothing demoStore "p" 3 2 = some 20 := by
  have h : ∀ i : Nat, i ≤ 2 →
      cellFee demoStore "p" (3 - (i : Int)) = some (demoF i) := by
    intro i hi
    interval_cases i <;> decide
  refine ⟨h, ?_⟩
  rw [getDateWithSmoothing_mean demoStore "p" 3 2 demoF h]
  norm_num [Finset.sum_range_succ, Finset.sum_range_zero,
    show demoF 0 = 30 from rfl, show demoF 1 = 20 from rfl,
    show demoF 2 = 10 from rfl]

/-! ## Recompute without fetch -/

/-- On a nonempty range whose every day is present for `id`, `getMissing`
neither mutates the store nor reports anything missing. -/
lemma getMissing_of_populated {fees : FeeStore} {a b : Int} {id : String}
    (hab : a ≤ b)
    (h : ∀ d, a ≤ d → d ≤ b → storeHas fees id d = true) :
    getMissing fees a b id = (fees, []) := by
  obtain ⟨m, hm⟩ : ∃ m, lookupId fees id = some m := by
    have ha := h a le_rfl hab
    unfold storeHas at ha
    cases hl : lookupId fees id with
    | none =>
        rw [hl] at ha
        exact absurd ha (by simp)
    | some m => exact ⟨m, rfl⟩
  have hfilter : (dateRange a b).filter
      (fun d => !(storeHas fees id d)) = [] := by
    refine List.filter_eq_nil_iff.mpr ?_
    intro d hd
    obtain ⟨h1, h2⟩ := mem_dateRange.mp hd
    rw [h d h1 h2]
    simp
  simp [getMissing, hm, hfilter]

/-- C7 — when the store is populated for the primary (and the secondary, if
set) on the whole effective range `[actualStart, rangeEnd]`, the `useFees`
effect issues no fetch: it leaves the store untouched and derives the output
series immediately. Since the store and parameters are unchanged, a second
identical invocation behaves identically, so repeated recomputes issue no
fetch either. -/
theorem runEffect_no_fetch (fees : FeeStore) (p : Params)
    (hr : p.rangeStart ≤ p.rangeEnd)
    (hp : ∀ d, actualStart p ≤ d → d ≤ p.rangeEnd →
      storeHas fees p.primary d = true)
    (hs : ∀ sid, p.secondary = some sid → ∀ d, actualStart p ≤ d →
      d ≤ p.rangeEnd → storeHas fees sid d = true) :
    runEffect fees p =
      .immediate fees
        (formatData fees p.rangeStart p.rangeEnd p.primary p.secondary
          p.smoothing) := by
  have has : actualStart p ≤ p.rangeEnd := by
    unfold actualStart
    split <;> omega
  have h1 := getMissing_of_populated has hp
  cases hsec : p.secondary with
  | none => simp [runEffect, h1, hsec]
  | some sid =>
      have h2 := getMissing_of_populated has (hs sid hsec)
      simp [runEffect, h1, hsec, h2]

/-- Store used by the C7 witness: protocols `"p"` and `"q"` populated on
days −1, 0, 1. -/
def fullStore : FeeStore :=
  [("p", [(-1, 4), (0, 5), (1, 6)]), ("q", [(-1, 7), (0, 8), (1, 9)])]

/-- Parameters used by the C7 witness: window `[0, 1]`, primary `"p"`,
secondary `"q"`, smoothing 1, so the effective range is `[-1, 1]`. -/
def fullParams : Params := ⟨0, 1, "p", some "q", 1⟩

/-- A concrete run of C7: with `fullStore` populated on the whole effective
range, the effect fetches nothing and derives immediately. -/
theorem runEffect_no_fetch_witness :
    (fullParams.rangeStart ≤ fullParams.rangeEnd) ∧
    (∀ d, actualStart fullParams ≤ d → d ≤ fullParams.rangeEnd →
      storeHas fullStore fullParams.primary d = true) ∧
    runEffect fullStore fullParams =
      .immediate fullStore
        (formatData fullStore fullParams.rangeStart fullParams.rangeEnd
          fullParams.primary fullParams.secondary fullParams.smoothing) := by
  have hr : fullParams.rangeStart ≤ fullParams.rangeEnd := by decide
  have hp : ∀ d, actualStart fullParams ≤ d → d ≤ fullParams.rangeEnd →
      storeHas fullStore fullParams.primary d = true := by
    intro d h1 h2
    have h1' : (-1 : Int) ≤ d := h1
    have h2' : d ≤ 1 := h2
    interval_cases d <;> decide
  have hs : ∀ sid, fullParams.secondary = some sid →
      ∀ d, actualStart fullParams ≤ d → d ≤ fullParams.rangeEnd →
        storeHas fullStore sid d = true := by
    intro sid hsid d h1 h2
    have hq : sid = "q" := by
      simpa [fullParams] using hsid.symm
    subst hq
    have h1' : (-1 : Int) ≤ d := h1
    have h2' : d ≤ 1 := h2
    interval_cases d <;> decide
  exact ⟨hr, hp, runEffect_no_fetch fullStore fullParams hr hp hs⟩

/-! ## Shape of the derived series -/

lemma sumSmoothing_isSome (data : FeeStore) (id : String) (date : Int) :
    ∀ k : Nat,
      (∀ i : Nat, i ≤ k → (cellFee data id (date - (i : Int))).isSome = true) →
      (sumSmoothing data id date k).isSome = true := by
  intro k
  induction k with
  | zero =>
      intro h
      have h0 := h 0 le_rfl
      simpa [sumSmoothing] using h0
  | succ k ih =>
      intro h
      have h1 := ih (fun i hi => h i (hi.trans (Nat.le_succ k)))
      have h2 := h (k + 1) le_rfl
      have h2' : (cellFee data id (date - ((k : Int) + 1))).isSome = true := by
        have e : ((k : Int) + 1) = (((k + 1 : Nat)) : Int) := by
          push_cast
          ring
        rw [e]
        exact h2
      obtain ⟨a, ha⟩ := Option.isSome_iff_exists.mp h1
      obtain ⟨b, hb⟩ := Option.isSome_iff_exists.mp h2'
      simp [sumSmoothing, ha, hb]

lemma getDateWithSmoothing_isSome (data : FeeStore) (id : String)
    (date : Int) (s : Nat)
    (h : ∀ i : Nat, i ≤ s → (cellFee data id (date - (i : Int))).isSome = true) :
    (getDateWithSmoothing data id date s).isSome = true := by
  cases s with
  | zero =>
      have h0 := h 0 le_rfl
      simpa [getDateWithSmoothing] using h0
  | succ n =>
      obtain ⟨a, ha⟩ :=
        Option.isSome_iff_exists.mp (sumSmoothing_isSome data id date (n + 1) h)
      simp [getDateWithSmoothing, ha]

/-- Every point `formatData` pushes for day `d` carries the timestamp
`d * secondsPerDay`. -/
lemma seriesPointAt_date {data : FeeStore} {pid : String}
    {sid : Option String} {s : Nat} {d : Int} {y : SeriesPoint}
    (h : seriesPointAt data pid sid s d = some y) :
    y.date = d * secondsPerDay := by
  cases sid with
  | none =>
      unfold seriesPointAt at h
      cases hp : getDateWithSmoothing data pid d s with
      | none => rw [hp] at h; exact absurd h (by simp)
      | some a =>
          rw [hp] at h
          simp only [Option.bind_eq_bind, Option.some_bind] at h
          cases h
          rfl
  | some x =>
      unfold seriesPointAt at h
      cases hp : getDateWithSmoothing data pid d s with
      | none => rw [hp] at h; exact absurd h (by simp)
      | some a =>
          rw [hp] at h
          simp only [Option.bind_eq_bind, Option.some_bind] at h
          cases hx : getDateWithSmoothing data x d s with
          | none => rw [hx] at h; exact absurd h (by simp)
          | some b =>
              rw [hx] at h
              simp only [Option.some_bind] at h
              cases h
              rfl

lemma seriesPointAt_isSome {data : FeeStore} {pid : String}
    {sid : Option String} {s : Nat} {d : Int}
    (hp : (getDateWithSmoothing data pid d s).isSome = true)
    (hs : ∀ x, sid = some x →
      (getDateWithSmoothing data x d s).isSome = true) :
    (seriesPointAt data pid sid s d).isSome = true := by
  obtain ⟨a, ha⟩ := Option.isSome_iff_exists.mp hp
  cases hsid : sid with
  | none => simp [seriesPointAt, ha]
  | some x =>
      obtain ⟨b, hb⟩ := Option.isSome_iff_exists.mp (hs x hsid)
      simp [seriesPointAt, ha, hb]

/-- When every day of the list has a computable point, the loop succeeds and
the produced timestamps are exactly the days times `secondsPerDay`. -/
lemma buildSeries_eq (data : FeeStore) (pid : String) (sid : Option String)
    (s : Nat) :
    ∀ ds : List Int,
      (∀ d ∈ ds, (seriesPointAt data pid sid s d).isSome = true) →
      ∃ ys, buildSeries data pid sid s ds = some ys ∧
        ys.map SeriesPoint.date = ds.map (fun d => d * secondsPerDay) := by
  intro ds
  induction ds with
  | nil => intro _; exact ⟨[], rfl, rfl⟩
  | cons d ds ih =>
      intro h
      obtain ⟨y, hy⟩ :=
        Option.isSome_iff_exists.mp (h d (List.mem_cons_self d ds))
      obtain ⟨ys, hys, hmap⟩ := ih (fun x hx => h x (List.mem_cons_of_mem d hx))
      refine ⟨y :: ys, ?_, ?_⟩
      · simp [buildSeries, hy, hys]
      · simp [hmap, seriesPointAt_date hy]

/-- C8 — for a window with `start ≤ end` and a store populated on the whole
effective range, `formatData` succeeds and produces exactly
`(end − start in days) + 1` points with strictly ascending timestamps. -/
theorem formatData_shape (data : FeeStore) (minD maxD : Int) (pid : String)
    (sid : Option String) (s : Nat) (hle : minD ≤ maxD)
    (hp : ∀ d, minD - (s : Int) ≤ d → d ≤ maxD →
      (cellFee data pid d).isSome = true)
    (hsec : ∀ x, sid = some x → ∀ d, minD - (s : Int) ≤ d → d ≤ maxD →
      (cellFee data x d).isSome = true) :
    ∃ pts, formatData data minD maxD pid sid s = some pts ∧
      pts.length = (maxD - minD).toNat + 1 ∧
      pts.Pairwise (fun a b => a.date < b.date) := by
  have hall : ∀ d ∈ dateRange minD maxD,
      (seriesPointAt data pid sid s d).isSome = true := by
    intro d hd
    obtain ⟨h1, h2⟩ := mem_dateRange.mp hd
    have hcell : ∀ id,
        (∀ e, minD - (s : Int) ≤ e → e ≤ maxD →
          (cellFee data id e).isSome = true) →
        (getDateWithSmoothing data id d s).isSome = true := by
      intro id hid
      refine getDateWithSmoothing_isSome data id d s ?_
      intro i hi
      refine hid (d - (i : Int)) ?_ ?_ <;> omega
    exact seriesPointAt_isSome (hcell pid hp)
      (fun x hx => hcell x (hsec x hx))
  obtain ⟨ys, hys, hmap⟩ :=
    buildSeries_eq data pid sid s (dateRange minD maxD) hall
  refine ⟨ys, hys, ?_, ?_⟩
  · have hlen : ys.length = (dateRange minD maxD).length := by
      have := congrArg List.length hmap
      simpa using this
    rw [hlen, dateRange_length]
    omega
  · have hpm : (ys.map SeriesPoint.date).Pairwise (· < ·) := by
      rw [hmap, List.pairwise_map]
      refine (dateRange_pairwise minD maxD).imp ?_
      intro a b hab
      have hsp : (0 : Int) < secondsPerDay := by decide
      exact mul_lt_mul_of_pos_right hab hsp
    rw [List.pairwise_map] at hpm
    exact hpm

/-- A concrete run of C8: window `[1, 3]` over `demoStore` with smoothing 0
gives three points with strictly ascending timestamps. -/
theorem formatData_shape_witness :
    ((1 : Int) ≤ 3) ∧
    (∀ d, (1 : Int) - ((0 : Nat) : Int) ≤ d → d ≤ 3 →
      (cellFee demoStore "p" d).isSome = true) ∧
    (∃ pts, formatData demoStore 1 3 "p" none 0 = some pts ∧
      pts.length = ((3 : Int) - 1).toNat + 1 ∧
      pts.Pairwise (fun a b => a.date < b.date)) := by
  have hle : (1 : Int) ≤ 3 := by decide
  have hp : ∀ d, (1 : Int) - ((0 : Nat) : Int) ≤ d → d ≤ 3 →
      (cellFee demoStore "p" d).isSome = true := by
    intro d h1 h2
    have h1' : (1 : Int) ≤ d := by omega
    interval_cases d <;> decide
  have hsec : ∀ x, (none : Option String) = some x →
      ∀ d, (1 : Int) - ((0 : Nat) : Int) ≤ d → d ≤ 3 →
        (cellFee demoStore x d).isSome = true :=
    fun x hx => absurd hx (by simp)
  exact ⟨hle, hp, formatData_shape demoStore 1 3 "p" none 0 hle hp hsec⟩

/-! ## Failure handling and the fetch race -/

/-- C2 — resolving any in-flight fetch with an unsuccessful response logs the
failure, returns the hook to the non-loading state, and leaves both the
previously derived series and the fee store unchanged. -/
theorem resolveFailure_preserves (s : HookState) (idx : Nat) (r : PendingReq)
    (resp : List (String × List (Int × FeeRec)))
    (h : s.pending.get? idx = some r) :
    (step s (.resolve idx false resp)).loading = false ∧
    (step s (.resolve idx false resp)).data = s.data ∧
    (step s (.resolve idx false resp)).fees = s.fees ∧
    (step s (.resolve idx false resp)).errorLogs = s.errorLogs + 1 := by
  have h' : s.pending[idx]? = some r := by
    rw [← List.get?_eq_getElem?]
    exact h
  simp [step, h', stepResolveBody]

/-- A hook state with one in-flight fetch, used by the C2 witness. -/
def pendingState : HookState :=
  { fees := demoStore, loading := true, data := [⟨0, 1, 0⟩],
    pending := [⟨⟨0, 0, "p", none, 0⟩, [0], []⟩], errorLogs := 0 }

/-- A concrete run of C2: a failed fetch clears `loading`, bumps the error
log, and leaves data and store as they were. -/
theorem resolveFailure_preserves_witness :
    pendingState.pending.get? 0 = some ⟨⟨0, 0, "p", none, 0⟩, [0], []⟩ ∧
    ((step pendingState (.resolve 0 false [])).loading = false ∧
     (step pendingState (.resolve 0 false [])).data = pendingState.data ∧
     (step pendingState (.resolve 0 false [])).fees = pendingState.fees ∧
     (step pendingState (.resolve 0 false [])).errorLogs =
       pendingState.errorLogs + 1) :=
  ⟨rfl, resolveFailure_preserves pendingState 0 ⟨⟨0, 0, "p", none, 0⟩, [0], []⟩
    [] rfl⟩

/-- First trigger of the race scenario: window `[day 0, day 0]`. -/
def triggerA : Params := ⟨0, 0, "p", none, 0⟩

/-- Second trigger of the race scenario: window `[day 1, day 1]`. -/
def triggerB : Params := ⟨1, 1, "p", none, 0⟩

/-- The race: trigger A, then (before A's fetch resolves) trigger B; B's
fetch resolves first, then A's late response arrives. -/
def raceTrace : List Event :=
  [.trigger triggerA, .trigger triggerB,
   .resolve 1 true [("p", [(1, 5)])],
   .resolve 0 true [("p", [(0, 3)])]]

/-- C1 — the race scenario on the actual code: after A is superseded by B
and A's fetch resolves last, the exposed series is the one derived for A's
window (`[(0, 3, 0)]`), not the series for B's window (`[(86400, 5, 0)]`),
because the completion handler has no stale-response guard. -/
theorem staleResponse_overwrites :
    (runTrace (initState []) raceTrace).data = [⟨0, 3, 0⟩] ∧
    formatData (runTrace (initState []) raceTrace).fees
      triggerA.rangeStart triggerA.rangeEnd triggerA.primary
      triggerA.secondary triggerA.smoothing = some [⟨0, 3, 0⟩] ∧
    formatData (runTrace (initState []) raceTrace).fees
      triggerB.rangeStart triggerB.rangeEnd triggerB.primary
      triggerB.secondary triggerB.smoothing = some [⟨86400, 5, 0⟩] ∧
    (runTrace (initState []) raceTrace).data ≠ [⟨86400, 5, 0⟩] := by
  decide

/-! ## Adapter claims -/

/-- C3 counterexample — a zero-row upstream result makes the V2 and V1 day
queries throw (`none`), not return a fee of 0. -/
theorem zeroRows_throws_v1_v2 :
    getUniswapV2Data ⟨[], []⟩ = none ∧
    getUniswapV1Data ⟨[]⟩ = none ∧
    getUniswapV2Data ⟨[], []⟩ ≠ some 0 ∧
    getUniswapV1Data ⟨[]⟩ ≠ some 0 := by
  decide

/-- C3 amended — only the V3-style adapters map a zero-row upstream result
to a fee of 0; the V2 and V1 day queries fail on zero rows. -/
theorem zeroRows_only_v3_zero :
    uniV3Adapter ⟨[]⟩ = some 0 ∧
    (∀ bl : List ℚ, getUniswapV2Data ⟨[], bl⟩ = none) ∧
    getUniswapV1Data ⟨[]⟩ = none :=
  ⟨rfl, fun _ => rfl, rfl⟩

/-- C4 counterexample — an upstream response whose blacklisted pairs report
more volume than the day total makes `getUniswapV2Data` return a negative
fee. -/
theorem negativeFee_possible :
    getUniswapV2Data ⟨[10], [20]⟩ = some (-(3 / 100)) ∧
    ¬(0 ≤ (-(3 / 100) : ℚ)) := by
  constructor
  · simp only [getUniswapV2Data]
    norm_num [blacklistVolume, feeRate]
  · norm_num

/-- C4 amended — each adapter's fee is non-negative for well-formed upstream
responses: non-negative row values, and for V2 a blacklisted volume total
not exceeding the day's reported volume. -/
theorem adapterFee_nonneg (r3 : UniV3Response) (r2 : UniV2Response)
    (r1 : UniV1Response) (v2 v1 : ℚ)
    (h3 : ∀ x ∈ r3.uniswapDayDatas, 0 ≤ x)
    (h2last : r2.uniswapDayDatas.get? (r2.uniswapDayDatas.length - 1) =
      some v2)
    (h2bl : blacklistVolume r2 ≤ v2)
    (h1last : r1.uniswapDayDatas.get? (r1.uniswapDayDatas.length - 1) =
      some v1)
    (h1pos : 0 ≤ v1) :
    (∀ q, uniV3Adapter r3 = some q → 0 ≤ q) ∧
    (∀ q, getUniswapV2Data r2 = some q → 0 ≤ q) ∧
    (∀ q, getUniswapV1Data r1 = some q → 0 ≤ q) := by
  have hrate : (0 : ℚ) ≤ feeRate := by norm_num [feeRate]
  refine ⟨?_, ?_, ?_⟩
  · intro q hq
    unfold uniV3Adapter at hq
    split at hq
    · simp only [Option.some.injEq] at hq
      subst hq
      exact le_rfl
    · exact h3 q (List.get?_mem hq)
  · intro q hq
    unfold getUniswapV2Data at hq
    rw [h2last] at hq
    simp only [Option.some.injEq] at hq
    subst hq
    exact mul_nonneg (sub_nonneg.mpr h2bl) hrate
  · intro q hq
    unfold getUniswapV1Data at hq
    rw [h1last] at hq
    simp only [Option.some.injEq] at hq
    subst hq
    exact mul_nonneg h1pos hrate

/-- A concrete run of the amended C4 on well-formed responses. -/
theorem adapterFee_nonneg_witness :
    (∀ x ∈ ([1, 2] : List ℚ), 0 ≤ x) ∧
    (([10] : List ℚ).get? (([10] : List ℚ).length - 1) = some 10) ∧
    blacklistVolume ⟨[10], [2, 3]⟩ ≤ 10 ∧
    (([7] : List ℚ).get? (([7] : List ℚ).length - 1) = some 7) ∧
    (0 : ℚ) ≤ 7 ∧
    ((∀ q, uniV3Adapter ⟨[1, 2]⟩ = some q → 0 ≤ q) ∧
     (∀ q, getUniswapV2Data ⟨[10], [2, 3]⟩ = some q → 0 ≤ q) ∧
     (∀ q, getUniswapV1Data ⟨[7]⟩ = some q → 0 ≤ q)) :=
  ⟨by decide, by decide, by norm_num [blacklistVolume], by decide,
   by norm_num,
   adapterFee_nonneg ⟨[1, 2]⟩ ⟨[10], [2, 3]⟩ ⟨[7]⟩ 10 7 (by decide)
     (by decide) (by norm_num [blacklistVolume]) (by decide) (by norm_num)⟩

/-- C9 — every adapter registered by `registerUniswap` rejects any attribute
other than the literal `"fee"` with an error before any delegation happens,
and with `"fee"` delegates to its day-fee function. -/
theorem uniswapQuery_feeOnly (reg : UniswapRegistration)
    (hreg : reg ∈ registerUniswap) (attr date : String)
    (hattr : attr ≠ "fee") :
    uniswapQueryFn reg.variant attr date =
      Except.error ("Uniswap doesn't support " ++ attr) ∧
    uniswapQueryFn reg.variant "fee" date =
      Except.ok ⟨reg.variant, date⟩ := by
  constructor
  · simp [uniswapQueryFn, hattr]
  · simp [uniswapQueryFn]

/-- A concrete run of C9: `query("volume", date)` on the registered
`uniswap-v2` adapter errors, `query("fee", date)` delegates. -/
theorem uniswapQuery_feeOnly_witness :
    ((⟨"uniswap-v2", .v2⟩ : UniswapRegistration) ∈ registerUniswap) ∧
    ("volume" ≠ "fee") ∧
    (uniswapQueryFn UniswapVariant.v2 "volume" "2021-01-01" =
      Except.error ("Uniswap doesn't support " ++ "volume") ∧
     uniswapQueryFn UniswapVariant.v2 "fee" "2021-01-01" =
      Except.ok ⟨UniswapVariant.v2, "2021-01-01"⟩) :=
  ⟨by decide, by decide,
   uniswapQuery_feeOnly ⟨"uniswap-v2", .v2⟩ (by decide) "volume"
     "2021-01-01" (by decide)⟩

end FeeBoard
